import Mathlib

/-!
Shallow embedding of the Label Studio example notebooks
(`chatbot-prompter/Customer Support Classification.ipynb`, the movie-script
prompter notebook, and the OCR-to-NER SDK notebook) and proofs about them.

Conventions used throughout:
* Python strings are Lean `String`s; string operations of the Python standard
  library (`str.strip`, `str.split`, `str.replace`) are re-implemented
  structurally over `String.data` so that every definition is executable and
  kernel-reducible (no well-founded recursion; bounded loops use explicit
  fuel that is always sufficient).
* Python dicts are association lists in insertion order; assignment to an
  existing key overwrites in place, assignment to a fresh key appends.  All
  dicts in the embedded code are built from the empty dict through
  `dictSet`, so keys are unique and overwriting the first occurrence is
  exact Python behaviour.
* Code that can raise returns `Except PyErr`; an uncaught Python exception is
  an `Except.error` that propagates through `foldlM`/`bind` exactly as an
  exception unwinds a Python loop.
* A notebook name counts as bound if it is assigned or imported anywhere in
  the notebook document; a name assigned nowhere raises `NameError`.
-/

/-- Python exceptions that the embedded code can raise. -/
inductive PyErr where
  | nameError (n : String)
  | keyError (k : String)
  | indexError
  | jsonDecodeError (msg : String)
  deriving DecidableEq, Repr

/-- Decidable equality on `Except`, used to evaluate concrete runs. -/
instance {ε α : Type _} [DecidableEq ε] [DecidableEq α] : DecidableEq (Except ε α) := fun a b =>
  match a, b with
  | Except.ok x, Except.ok y => decidable_of_iff (x = y) (by simp)
  | Except.error e, Except.error f => decidable_of_iff (e = f) (by simp)
  | Except.ok _, Except.error _ => isFalse (by simp)
  | Except.error _, Except.ok _ => isFalse (by simp)

/-! ## Python dicts as insertion-ordered association lists -/

/-- Keys of a Python dict, in insertion order. -/
def dictKeys (d : List (String × α)) : List String :=
  d.map Prod.fst

/-- Lookup `d[k]` of Python, as an `Option`. -/
def dictGet? (d : List (String × α)) (k : String) : Option α :=
  match d with
  | [] => none
  | p :: rest => if p.1 = k then some p.2 else dictGet? rest k

/-- Membership test `k in d` of Python. -/
def dictContains (d : List (String × α)) (k : String) : Bool :=
  (dictGet? d k).isSome

/-- Assignment `d[k] = v` of Python: overwrite in place if the key exists,
append otherwise (Python dicts keep insertion order). -/
def dictSet (d : List (String × α)) (k : String) (v : α) : List (String × α) :=
  match d with
  | [] => [(k, v)]
  | p :: rest => if p.1 = k then (k, v) :: rest else p :: dictSet rest k v

/-! ## Python string operations, structurally over `String.data` -/

/-- Characters stripped by Python `str.strip()` (ASCII whitespace). -/
def isPySpace (c : Char) : Bool :=
  c.toNat = 32 || c.toNat = 9 || c.toNat = 10 || c.toNat = 13 || c.toNat = 11 || c.toNat = 12

/-- Python `str.strip()` on a character list. -/
def pyStripChars (cs : List Char) : List Char :=
  ((cs.dropWhile isPySpace).reverse.dropWhile isPySpace).reverse

/-- Worker for Python `str.split(sep)` with a non-empty separator.  The fuel
is always called with at least the length of the remaining input, so the
fuel-exhaustion branch is unreachable; it exists only to keep the recursion
structural. -/
def splitSepAux (sep : List Char) : Nat → List Char → List Char → List (List Char)
  | _, [], acc => [acc.reverse]
  | 0, cs, acc => [acc.reverse ++ cs]
  | fuel + 1, c :: rest, acc =>
      if sep.isPrefixOf (c :: rest) then
        acc.reverse :: splitSepAux sep fuel (List.drop (sep.length - 1) rest) []
      else
        splitSepAux sep fuel rest (c :: acc)

/-- Python `str.split(sep)` on character lists (`sep` non-empty). -/
def splitSep (sep : List Char) (cs : List Char) : List (List Char) :=
  splitSepAux sep (cs.length) cs []

/-- The field separator of the Cornell movie-dialogues corpus. -/
def cornellSep : List Char := " +++$+++ ".data

/-- The Python expression `line.strip().split(" +++$+++ ")` used by both
`parse_movie_lines` and `create_conversations`. -/
def lineParts (line : String) : List String :=
  (splitSep cornellSep (pyStripChars line.data)).map String.mk

/-! ## `parse_movie_lines` (movie-script prompter notebook) -/

/-- One line entry `{"author": character_name, "text": text}`. -/
abbrev LineEntry := List (String × String)

/-- The dict built by `parse_movie_lines`, keyed by line id. -/
abbrev LineDict := List (String × LineEntry)

/-- Body of the `for line in lines_content` loop of `parse_movie_lines`:
split the stripped line on the corpus separator and, when it has exactly
five fields, store `{"author": character_name, "text": text}` under the
line id; other lines are skipped. -/
def parseStep (line_dict : LineDict) (line : String) : LineDict :=
  match lineParts line with
  | [line_id, _character_id, _movie_id, character_name, text] =>
      dictSet line_dict line_id [("author", character_name), ("text", text)]
  | _ => line_dict

/-- `parse_movie_lines`, taking the list of lines returned by `read_file`. -/
def parse_movie_lines (lines_content : List String) : LineDict :=
  lines_content.foldl parseStep []

/-! ## `json.loads` on the line-id lists of `create_conversations`

`create_conversations` calls `json.loads` on the fourth corpus field after
replacing single quotes by double quotes; the JSON in question is an array
of strings.  The loader below implements that grammar (arrays of strings,
JSON whitespace, the single-character escape sequences); any other input is
a `jsonDecodeError`, as `json.loads` raises `JSONDecodeError` on malformed
input.  (`\uXXXX` escapes and non-array JSON values are not used by the
corpus and are mapped to errors as well.) -/

/-- JSON whitespace. -/
def isJsonWs (c : Char) : Bool :=
  c.toNat = 32 || c.toNat = 9 || c.toNat = 10 || c.toNat = 13

/-- The double-quote character. -/
def quoteChar : Char := Char.ofNat 34

/-- The single-quote character. -/
def singleQuoteChar : Char := Char.ofNat 39

/-- The backslash character. -/
def backslashChar : Char := Char.ofNat 92

/-- Python `s.replace("'", '"')` (single-character pattern). -/
def replaceQuotes (s : String) : String :=
  String.mk (s.data.map (fun c => if c = singleQuoteChar then quoteChar else c))

/-- Decoded value of a JSON string escape `\c`, if valid. -/
def escChar (c : Char) : Option Char :=
  if c.toNat = 34 || c.toNat = 92 || c.toNat = 47 then some c
  else if c.toNat = 110 then some (Char.ofNat 10)
  else if c.toNat = 116 then some (Char.ofNat 9)
  else if c.toNat = 114 then some (Char.ofNat 13)
  else if c.toNat = 98 then some (Char.ofNat 8)
  else if c.toNat = 102 then some (Char.ofNat 12)
  else none

/-- Parse the body of a JSON string (after the opening quote); returns the
string and the input following the closing quote.  Fuel is always at least
the input length, so exhaustion is unreachable. -/
def jsonStrBody : Nat → List Char → List Char → Except PyErr (String × List Char)
  | _, [], _ => Except.error (PyErr.jsonDecodeError "Unterminated string")
  | 0, _ :: _, _ => Except.error (PyErr.jsonDecodeError "fuel")
  | fuel + 1, c :: rest, acc =>
      if c = quoteChar then Except.ok (String.mk acc.reverse, rest)
      else if c = backslashChar then
        match rest with
        | [] => Except.error (PyErr.jsonDecodeError "Unterminated string")
        | e :: rest2 =>
            match escChar e with
            | some ec => jsonStrBody fuel rest2 (ec :: acc)
            | none => Except.error (PyErr.jsonDecodeError "Invalid escape")
      else jsonStrBody fuel rest (c :: acc)

/-- Parse the items of a JSON array of strings, positioned at the start of
an item; returns the items and the input after the closing bracket. -/
def jsonArrItems : Nat → List Char → List String → Except PyErr (List String × List Char)
  | 0, _, _ => Except.error (PyErr.jsonDecodeError "fuel")
  | fuel + 1, cs, acc =>
      match cs.dropWhile isJsonWs with
      | [] => Except.error (PyErr.jsonDecodeError "Expecting value")
      | c :: rest =>
          if c = quoteChar then
            match jsonStrBody (rest.length) rest [] with
            | Except.error e => Except.error e
            | Except.ok (s, rest2) =>
                match rest2.dropWhile isJsonWs with
                | [] => Except.error (PyErr.jsonDecodeError "Expecting delimiter")
                | d :: rest3 =>
                    if d.toNat = 93 then Except.ok (acc ++ [s], rest3)
                    else if d.toNat = 44 then jsonArrItems fuel rest3 (acc ++ [s])
                    else Except.error (PyErr.jsonDecodeError "Expecting delimiter")
          else Except.error (PyErr.jsonDecodeError "Expecting value")

/-- `json.loads` restricted to JSON arrays of strings. -/
def loadsStrList (s : String) : Except PyErr (List String) :=
  match (s.data).dropWhile isJsonWs with
  | [] => Except.error (PyErr.jsonDecodeError "Expecting value")
  | c :: rest =>
      if c.toNat = 91 then
        match rest.dropWhile isJsonWs with
        | [] => Except.error (PyErr.jsonDecodeError "Expecting value")
        | d :: rest2 =>
            if d.toNat = 93 then
              if rest2.dropWhile isJsonWs = [] then Except.ok []
              else Except.error (PyErr.jsonDecodeError "Extra data")
            else
              match jsonArrItems (rest.length + 1) rest [] with
              | Except.error e => Except.error e
              | Except.ok (items, rem) =>
                  if rem.dropWhile isJsonWs = [] then Except.ok items
                  else Except.error (PyErr.jsonDecodeError "Extra data")
      else Except.error (PyErr.jsonDecodeError "Expecting value")

/-! ## `create_conversations` (movie-script prompter notebook) -/

/-- The dict entry `{"dialogue": dialogue}` appended per conversation. -/
abbrev DialogueRecord := List (String × List LineEntry)

/-- The dict built by `create_conversations`, keyed by movie id. -/
abbrev MovieDict := List (String × List DialogueRecord)

/-- Registered stepping stone so that equality on the nested dict types
stays synthesizable. -/
instance : DecidableEq DialogueRecord := inferInstance

/-- Registered stepping stone for `MovieDict` equality. -/
instance : DecidableEq MovieDict := inferInstance

/-- Body of the `for conversation in conversations_content` loop of
`create_conversations`: for records with exactly four fields, decode the
line-id list, look the ids up in `lines` (dropping absent ids), and append
`{"dialogue": dialogue}` under the movie id; other records are skipped. -/
def convStep (lines : LineDict) (movie_conversations : MovieDict) (conversation : String) :
    Except PyErr MovieDict :=
  match lineParts conversation with
  | [_character_id1, _character_id2, movie_id, line_ids_str] => do
      let line_ids ← loadsStrList (replaceQuotes line_ids_str)
      let dialogue := line_ids.filterMap (fun line_id => dictGet? lines line_id)
      let m :=
        if dictContains movie_conversations movie_id then movie_conversations
        else dictSet movie_conversations movie_id []
      Except.ok (dictSet m movie_id (((dictGet? m movie_id).getD []) ++ [[("dialogue", dialogue)]]))
  | _ => Except.ok movie_conversations

/-- `create_conversations`, taking the list of lines of the conversations
file and the parsed-lines dict. -/
def create_conversations (conversations_content : List String) (lines : LineDict) :
    Except PyErr MovieDict :=
  conversations_content.foldlM (convStep lines) []

/-! ## Customer Support Classification notebook -/

/-- One turn of a dialogue of `dialogues.jsonl`, as decoded by `json.loads`.
The dataset schema gives string values for `speaker_role` and `utterance`
and a list of strings for `intents`; `Option.none` models a missing key
(reading a missing key raises `KeyError`, and the `intents` field is
accessed only behind an `if 'intents' in turn` guard). -/
structure SupportTurn where
  speaker_role : Option String
  utterance : Option String
  intents : Option (List String)
  deriving DecidableEq, Repr

/-- One line of `dialogues.jsonl`, as decoded by `json.loads`. -/
structure SupportDialogue where
  turns : Option (List SupportTurn)
  deriving DecidableEq, Repr

/-- Reading of the Python key access `x[k]` on an optional field. -/
def getKey (o : Option α) (k : String) : Except PyErr α :=
  match o with
  | some v => Except.ok v
  | none => Except.error (PyErr.keyError k)

/-- Effect of the dialogues.jsonl download cell. -/
inductive DownloadEffect where
  | wroteFile (path : String) (content : String)
  | printedMessage (msg : String)
  deriving DecidableEq, Repr

/-- The download cell: fetch the file, and if the status code is 200 write
the body to `dialogues.jsonl`, otherwise print a failure message.  The cell
raises no exception of its own on a failed download — the non-200 branch is
handled in place by the `print`. -/
def downloadCell (status_code : Nat) (content : String) : Except PyErr DownloadEffect :=
  if status_code = 200 then
    Except.ok (DownloadEffect.wroteFile "dialogues.jsonl" content)
  else
    Except.ok (DownloadEffect.printedMessage
      ("Failed to download the file. Status code: " ++ toString status_code))

/-- One turn dict `{'author': speaker_role, 'text': utterance}` appended by
the transformation loop. -/
def transformTurn (turn : SupportTurn) : Except PyErr (List (String × String)) := do
  let speaker_role ← getKey turn.speaker_role "speaker_role"
  let utterance ← getKey turn.utterance "utterance"
  Except.ok [("author", speaker_role), ("text", utterance)]

/-- A transformed dialogue task `{'dialogue': [...]}`. -/
abbrev DialogueTask := List (String × List (List (String × String)))

/-- Loop body shared by the appending loops of the notebooks: run `g` on the
element and append the result to the accumulated list. -/
def appendStep (g : α → Except PyErr β) (acc : List β) (a : α) : Except PyErr (List β) := do
  let b ← g a
  Except.ok (acc ++ [b])

/-- Body of the `for turn in dialogue['turns']` loop followed by the final
append: build `{'dialogue': turns}` for one parsed line of the JSONL file. -/
def transformDialogue (dialogue : SupportDialogue) : Except PyErr DialogueTask := do
  let ts ← getKey dialogue.turns "turns"
  let turns ← ts.foldlM (appendStep transformTurn) []
  Except.ok [("dialogue", turns)]

/-- The `transformed_dialogues` cell: one transformed dialogue appended per
input line, in input order. -/
def transformedDialogues (dialogues : List SupportDialogue) : Except PyErr (List DialogueTask) :=
  dialogues.foldlM (appendStep transformDialogue) []

/-- Body of the intents-collection loop: add every intent of every turn of
the dialogue to the set (`if 'intents' in turn` guards the access). -/
def intentsStep (acc : Finset String) (dialogue : SupportDialogue) : Except PyErr (Finset String) := do
  let ts ← getKey dialogue.turns "turns"
  Except.ok (ts.foldl (fun acc turn =>
    match turn.intents with
    | some is => is.foldl (fun a i => insert i a) acc
    | none => acc) acc)

/-- The `unique_intents` set after the collection loop. -/
def uniqueIntents (dialogues : List SupportDialogue) : Except PyErr (Finset String) :=
  dialogues.foldlM intentsStep ∅

/-- `sorted_unique_intents = sorted(list(unique_intents))`: Python sorts
strings lexicographically by code point, which is the linear order on
`String`. -/
def sortedUniqueIntents (dialogues : List SupportDialogue) : Except PyErr (List String) :=
  Except.map (fun s => Finset.sort (· ≤ ·) s) (uniqueIntents dialogues)

/-- One generated choice element
`f'      <Choice value="{intent}" />'`. -/
def choiceLine (intent : String) : String :=
  "      <Choice value=\"" ++ intent ++ "\" />"

/-- `choices_xml = '\n'.join([...])` over a list of intents. -/
def choicesXml (intents : List String) : String :=
  String.intercalate "\n" (intents.map choiceLine)

/-- The generated choices XML of a dialogue list. -/
def choicesXmlOf (dialogues : List SupportDialogue) : Except PyErr String :=
  Except.map choicesXml (sortedUniqueIntents dialogues)

/-! ## OCR-to-NER SDK notebook -/

/-- The `value` dict of one annotation result of the first project; the
chaining loop reads only its optional `text` key, a list of strings in the
Label Studio JSON format (`r["value"]["text"][0]`). -/
structure AnnValue where
  text : Option (List String)
  deriving DecidableEq, Repr

/-- One annotation result `r` (element of `a["result"]`). -/
structure AnnResult where
  value : AnnValue
  deriving DecidableEq, Repr

/-- One annotation `a` of a task (element of `task.annotations`). -/
structure TaskAnn where
  result : List AnnResult
  deriving DecidableEq, Repr

/-- One task returned by `ls.tasks.list(project=proj.id)`. -/
structure LSTask where
  annotations : List TaskAnn
  deriving DecidableEq, Repr

/-- A task `{'text': text}` created in the NER project. -/
abbrev NerTask := List (String × String)

/-- The accumulation `text = text + r["value"]["text"][0]` over one result:
skipped unless `"text" in r["value"].keys()`, and `[0]` raises `IndexError`
on an empty list. -/
def resStep (acc : String) (r : AnnResult) : Except PyErr String :=
  match r.value.text with
  | none => Except.ok acc
  | some [] => Except.error PyErr.indexError
  | some (s :: _) => Except.ok (acc ++ s)

/-- The two nested loops `for a in task.annotations: for r in results:`
accumulating `text` for one task, starting from the empty string. -/
def taskText (task : LSTask) : Except PyErr String :=
  task.annotations.foldlM (fun acc a => a.result.foldlM resStep acc) ""

/-- The pure concatenation the loops compute when no `IndexError` occurs:
over the task's annotations in order and each annotation's results in
order, the first element of each result value's `text` list (results
without a `text` key contribute nothing). -/
def concatText (task : LSTask) : String :=
  task.annotations.foldl (fun acc a =>
    a.result.foldl (fun acc r =>
      match r.value.text with
      | none => acc
      | some l => acc ++ l.headD "") acc) ""

/-- The `if i == 0` investigation branch of the chaining loop:
`print(json.dumps(task.annotations[0], indent=4))` indexes the first
annotation, raising `IndexError` when the first task has none; the printed
output itself has no further effect. -/
def printFirstTask (i : Nat) (task : LSTask) : Except PyErr Unit :=
  if i = 0 then
    match task.annotations with
    | [] => Except.error PyErr.indexError
    | _ :: _ => Except.ok ()
  else Except.ok ()

/-- Body of `for i, task in enumerate(tasks)` in the chaining cell: the
`i == 0` print, the `text` accumulation, and `ls.tasks.create(project=p2id,
data={'text': text})` guarded by `if text:` (non-empty string truthiness).
The accumulator collects the data of the created tasks, in creation
order. -/
def chainBody (acc : List NerTask) (it : Nat × LSTask) : Except PyErr (List NerTask) := do
  let _ ← printFirstTask it.1 it.2
  let text ← taskText it.2
  if text = "" then Except.ok acc else Except.ok (acc ++ [[("text", text)]])

/-- The chaining cell: iterate over the tasks listed from the first project
and create one NER task per task with non-empty accumulated text.  Returns
the list of created task data. -/
def chainCell (tasks : List LSTask) : Except PyErr (List NerTask) :=
  (List.enum tasks).foldlM chainBody []

/-! ### The preannotation cell -/

/-- The value of one field of a prediction result item: string fields hold
the tag names, the `value` field holds the span dict with numeric bounds
and a label list. -/
inductive ResField where
  | str (s : String)
  | num (n : Nat)
  | strs (l : List String)
  | vdict (d : List (String × ResField))

/-- A prediction result item, a JSON dict. -/
abbrev ResultItem := List (String × ResField)

/-- The hard-coded span dict `predicted_slogan` assigned in the loop body:
`{"from_name": "NER", "to_name": "text", "type": "labels",
"value": {"start": 10, "end": 20, "labels": ["PER"]}}`. -/
def predicted_slogan : ResultItem :=
  [("from_name", ResField.str "NER"),
   ("to_name", ResField.str "text"),
   ("type", ResField.str "labels"),
   ("value", ResField.vdict
      [("start", ResField.num 10), ("end", ResField.num 20), ("labels", ResField.strs ["PER"])])]

/-- The `PredictionValue(...)` constructed in the loop body. -/
structure LSPrediction where
  model_version : String
  score : ℚ
  result : List ResultItem

/-- Names assigned or imported anywhere in the OCR-to-NER notebook, read
off its cells.  `predicted_label` is not among them. -/
def ocrNotebookNames : List String :=
  ["label_studio_url", "label_studio_api_key", "data", "LabelStudio", "ls",
   "LabelInterface", "labels", "choices", "label_config", "label_config2",
   "proj", "pid", "ner_label_config", "proj2", "p2id", "tasks", "i", "task",
   "text", "a", "results", "r", "json", "project", "li", "sample_pred",
   "random", "PredictionValue", "predicted_slogan", "prediction"]

/-- Evaluation of a bare name in the `result=[predicted_label,
predicted_slogan]` expression of the preannotation loop body.
`predicted_slogan` is assigned just above it; `predicted_label` is assigned
nowhere in the notebook (see `ocrNotebookNames`), so evaluating it raises
`NameError`. -/
def resultNameValue (n : String) : Except PyErr ResultItem :=
  if n = "predicted_slogan" then Except.ok predicted_slogan
  else Except.error (PyErr.nameError n)

/-- Body of `for task in tasks` in the preannotation cell: assign
`predicted_slogan`, then build `PredictionValue(model_version=
'random-ai-prediction', score=0.99, result=[predicted_label,
predicted_slogan])` — Python evaluates the list elements left to right, so
the unbound name `predicted_label` is evaluated first — and pass it to
`ls.predictions.create(task=task.id, ...)`. -/
def preannotationBody (task_id : Nat) : Except PyErr (Nat × LSPrediction) := do
  let lbl ← resultNameValue "predicted_label"
  let slogan ← resultNameValue "predicted_slogan"
  Except.ok (task_id,
    { model_version := "random-ai-prediction"
      score := (99 : ℚ) / 100
      result := [lbl, slogan] })

/-- The preannotation cell: run the loop body for every task listed from
the NER project, collecting the predictions it creates. -/
def preannotationCell (task_ids : List Nat) : Except PyErr (List (Nat × LSPrediction)) :=
  task_ids.foldlM (fun acc tid => do
    let p ← preannotationBody tid
    Except.ok (acc ++ [p])) []

/-- Input on which the chaining cell crashes: the first listed task has no
annotations, the second holds recognized text. -/
def chainCrashTasks : List LSTask :=
  [⟨[]⟩, ⟨[⟨[⟨⟨some ["OCR text"]⟩⟩]⟩]⟩]

/-- Concrete chaining input: a task whose annotations concatenate to
`There it is.` and a task whose only text is empty. -/
def chainWitnessTasks : List LSTask :=
  [⟨[⟨[⟨⟨some ["There "]⟩⟩, ⟨⟨none⟩⟩, ⟨⟨some ["it is."]⟩⟩]⟩]⟩, ⟨[⟨[⟨⟨some [""]⟩⟩]⟩]⟩]

/-! ## Pure descriptions of the transformation output -/

/-- A turn record carrying both keys the transformation reads. -/
def turnWF (t : SupportTurn) : Prop :=
  t.speaker_role.isSome = true ∧ t.utterance.isSome = true

/-- A dialogue record carrying its `turns` key, all of them well-formed. -/
def dialogueWF (d : SupportDialogue) : Prop :=
  d.turns.isSome = true ∧ ∀ t ∈ d.turns.getD [], turnWF t

instance (t : SupportTurn) : Decidable (turnWF t) := by
  unfold turnWF; infer_instance

instance (d : SupportDialogue) : Decidable (dialogueWF d) := by
  unfold dialogueWF; infer_instance

/-- The turn dict the transformation builds: key `speaker_role` renamed to
`author`, key `utterance` renamed to `text`. -/
def turnTask (t : SupportTurn) : List (String × String) :=
  [("author", t.speaker_role.getD ""), ("text", t.utterance.getD "")]

/-- The dialogue task the transformation builds: a single key `dialogue`
holding the turns mapped one-to-one in order. -/
def dialogueTask (d : SupportDialogue) : DialogueTask :=
  [("dialogue", (d.turns.getD []).map turnTask)]

/-! ## Characterization of `create_conversations` -/

/-- The contribution one conversation record makes: for records with
exactly four fields whose id list decodes, the movie id together with the
appended `{"dialogue": dialogue}` record, where the dialogue looks the
listed line ids up in order and silently drops absent ones; any other
record contributes nothing. -/
def recordEntry (lines : LineDict) (conversation : String) : Option (String × DialogueRecord) :=
  match lineParts conversation with
  | [_character_id1, _character_id2, movie_id, line_ids_str] =>
      match loadsStrList (replaceQuotes line_ids_str) with
      | Except.ok line_ids =>
          some (movie_id, [("dialogue", line_ids.filterMap (fun line_id => dictGet? lines line_id))])
      | Except.error _ => none
  | _ => none

/-- The dialogue records grouped under one movie id, in input order. -/
def groupVal (lines : LineDict) (conversations_content : List String) (movie_id : String) :
    List DialogueRecord :=
  ((conversations_content.filterMap (recordEntry lines)).filter
    (fun p => p.1 = movie_id)).map Prod.snd

/-- Combination of an inherited dict value with newly grouped records. -/
def combineOpt (o : Option (List DialogueRecord)) (l : List DialogueRecord) :
    Option (List DialogueRecord) :=
  match o, l with
  | none, [] => none
  | none, l => some l
  | some b, l => some (b ++ l)

/-- Concrete parsed-lines dict for the `create_conversations` witness. -/
def convWitnessLines : LineDict := [("L1", [("author", "BIANCA"), ("text", "Hi.")])]

/-- Concrete conversations file: one well-formed record whose id list
mentions the absent id `L9`, and one malformed record. -/
def convWitnessContent : List String :=
  ["u0 +++$+++ u2 +++$+++ m0 +++$+++ ['L1', 'L9']", "short record"]

/-- The dict `create_conversations` builds on the witness input. -/
def convWitnessResult : MovieDict :=
  [("m0", [[("dialogue", [[("author", "BIANCA"), ("text", "Hi.")]])]])]

/-! ## The intents collection and the generated choices XML -/

/-- An intent occurs in the input: some dialogue has a turn listing it. -/
def intentOccurs (dialogues : List SupportDialogue) (x : String) : Prop :=
  ∃ d ∈ dialogues, ∃ t ∈ d.turns.getD [], x ∈ t.intents.getD []

instance (dialogues : List SupportDialogue) (x : String) :
    Decidable (intentOccurs dialogues x) := by
  unfold intentOccurs; infer_instance

/-- Two-dialogue witness input for the intents invariance claim. -/
def intentsWitness1 : List SupportDialogue :=
  [⟨some [⟨some "A", some "u", some ["PayBill", "AddDependent"]⟩]⟩,
   ⟨some [⟨some "B", some "v", some ["PayBill"]⟩]⟩]

/-- The same two dialogues in the opposite order. -/
def intentsWitness2 : List SupportDialogue :=
  [⟨some [⟨some "B", some "v", some ["PayBill"]⟩]⟩,
   ⟨some [⟨some "A", some "u", some ["PayBill", "AddDependent"]⟩]⟩]

/-- An extra dialogue repeating an already-occurring intent. -/
def intentsWitnessExtra : SupportDialogue :=
  ⟨some [⟨some "C", some "w", some ["AddDependent"]⟩]⟩

/-! ## Theorems -/

theorem dictGet?_dictSet (d : List (String × α)) (k : String) (v : α) (k' : String) :
    dictGet? (dictSet d k v) k' = if k' = k then some v else dictGet? d k' := by
  induction d with
  | nil =>
      by_cases h : k' = k
      · subst h; simp [dictSet, dictGet?]
      · have hk : ¬ k = k' := fun he => h he.symm
        simp [dictSet, dictGet?, h, hk]
  | cons p rest ih =>
      by_cases hp : p.1 = k
      · by_cases h : k' = k
        · subst h; simp [dictSet, hp, dictGet?]
        · have hk : ¬ k = k' := fun he => h he.symm
          have hpk' : ¬ p.1 = k' := by rw [hp]; exact hk
          simp [dictSet, hp, dictGet?, h, hk, hpk']
      · by_cases h : k' = k
        · subst h
          have hp' : ¬ p.1 = k' := hp
          simp [dictSet, hp, dictGet?, hp', ih]
        · by_cases hpk' : p.1 = k'
          · simp [dictSet, hp, dictGet?, hpk', h]
          · simp [dictSet, hp, dictGet?, hpk', h, ih]

theorem mem_dictSet {p : String × α} {d : List (String × α)} {k : String} {v : α}
    (h : p ∈ dictSet d k v) : p = (k, v) ∨ p ∈ d := by
  induction d with
  | nil => simpa [dictSet] using h
  | cons q rest ih =>
      by_cases hq : q.1 = k
      · simp only [dictSet, hq, if_true, List.mem_cons] at h
        rcases h with h | h
        · exact Or.inl h
        · exact Or.inr (List.mem_cons_of_mem _ h)
      · simp only [dictSet, hq, if_false, List.mem_cons] at h
        rcases h with h | h
        · subst h; exact Or.inr (List.mem_cons_self _ _)
        · rcases ih h with h' | h'
          · exact Or.inl h'
          · exact Or.inr (List.mem_cons_of_mem _ h')

theorem dictKeys_dictSet (d : List (String × α)) (k : String) (v : α) :
    dictKeys (dictSet d k v) = dictKeys d ++ [k] ∨ dictKeys (dictSet d k v) = dictKeys d := by
  induction d with
  | nil => simp [dictSet, dictKeys]
  | cons q rest ih =>
      by_cases hq : q.1 = k
      · right; simp [dictSet, hq, dictKeys]
      · rcases ih with h | h
        · left; simp [dictSet, hq, dictKeys] at h ⊢; exact h
        · right; simp [dictSet, hq, dictKeys] at h ⊢; exact h

theorem nodup_dictKeys_dictSet {d : List (String × α)} {k : String} {v : α}
    (h : (dictKeys d).Nodup) : (dictKeys (dictSet d k v)).Nodup := by
  induction d with
  | nil => simp [dictSet, dictKeys]
  | cons q rest ih =>
      simp only [dictKeys, List.map_cons, List.nodup_cons] at h
      by_cases hq : q.1 = k
      · simp only [dictSet, hq, if_true, dictKeys, List.map_cons, List.nodup_cons]
        exact ⟨hq ▸ h.1, h.2⟩
      · simp only [dictSet, hq, if_false, dictKeys, List.map_cons, List.nodup_cons]
        refine ⟨?_, ih h.2⟩
        intro hmem
        have : ∀ p ∈ dictSet rest k v, p.1 = q.1 → False := by
          intro p hp hpq
          rcases mem_dictSet hp with h' | h'
          · rw [h'] at hpq
            exact hq hpq.symm
          · exact h.1 (hpq ▸ List.mem_map_of_mem Prod.fst h')
        simp only [dictKeys, List.mem_map] at hmem
        rcases hmem with ⟨p, hp, hpq⟩
        exact this p hp hpq

theorem dictGet?_of_mem_nodup {d : List (String × α)} {p : String × α}
    (hd : (dictKeys d).Nodup) (hp : p ∈ d) : dictGet? d p.1 = some p.2 := by
  induction d with
  | nil => simp at hp
  | cons q rest ih =>
      simp only [dictKeys, List.map_cons, List.nodup_cons] at hd
      rcases List.mem_cons.mp hp with h | h
      · subst h; simp [dictGet?]
      · have hne : q.1 ≠ p.1 := by
          intro he
          exact hd.1 (he ▸ List.mem_map_of_mem Prod.fst h)
        simp [dictGet?, hne, ih hd.2 h]

theorem predicted_label_not_assigned : "predicted_label" ∉ ocrNotebookNames := by decide

/-! ## Helper lemmas about the embedded loops -/

theorem exceptBind_ok (a : α) (f : α → Except ε β) :
    (Except.ok a : Except ε α) >>= f = f a := rfl

theorem exceptBind_error (e : ε) (f : α → Except ε β) :
    (Except.error e : Except ε α) >>= f = Except.error e := rfl

theorem resStep_fold (rs : List AnnResult) (acc : String)
    (h : ∀ r ∈ rs, r.value.text ≠ some []) :
    rs.foldlM resStep acc = Except.ok (rs.foldl (fun acc r =>
      match r.value.text with
      | none => acc
      | some l => acc ++ l.headD "") acc) := by
  induction rs generalizing acc with
  | nil => rfl
  | cons r rs ih =>
      have hr := h r (List.mem_cons_self _ _)
      have hrest : ∀ x ∈ rs, x.value.text ≠ some [] := fun x hx => h x (List.mem_cons_of_mem _ hx)
      cases htext : r.value.text with
      | none =>
          simp only [List.foldlM_cons, List.foldl_cons, resStep, htext, exceptBind_ok]
          exact ih _ hrest
      | some l =>
          cases l with
          | nil => exact absurd htext hr
          | cons s tl =>
              simp only [List.foldlM_cons, List.foldl_cons, resStep, htext, exceptBind_ok,
                List.headD]
              exact ih _ hrest

theorem annFold_ok (annots : List TaskAnn) (init : String)
    (h : ∀ a ∈ annots, ∀ r ∈ a.result, r.value.text ≠ some []) :
    annots.foldlM (fun acc a => a.result.foldlM resStep acc) init =
      Except.ok (annots.foldl (fun acc a =>
        a.result.foldl (fun acc r =>
          match r.value.text with
          | none => acc
          | some l => acc ++ l.headD "") acc) init) := by
  induction annots generalizing init with
  | nil => rfl
  | cons a as ih =>
      have ha := h a (List.mem_cons_self _ _)
      have has : ∀ x ∈ as, ∀ r ∈ x.result, r.value.text ≠ some [] :=
        fun x hx => h x (List.mem_cons_of_mem _ hx)
      simp only [List.foldlM_cons, List.foldl_cons]
      rw [resStep_fold a.result init ha, exceptBind_ok]
      exact ih _ has

theorem taskText_ok (t : LSTask)
    (h : ∀ a ∈ t.annotations, ∀ r ∈ a.result, r.value.text ≠ some []) :
    taskText t = Except.ok (concatText t) :=
  annFold_ok t.annotations "" h

theorem chain_fold_tail (ts : List LSTask) (n : Nat) (acc : List NerTask)
    (h : ∀ t ∈ ts, ∀ a ∈ t.annotations, ∀ r ∈ a.result, r.value.text ≠ some []) :
    (List.enumFrom (n + 1) ts).foldlM chainBody acc =
      Except.ok (acc ++ (ts.filter (fun t => concatText t ≠ "")).map
        (fun t => [("text", concatText t)])) := by
  induction ts generalizing n acc with
  | nil =>
      simp only [List.enumFrom, List.foldlM_nil, List.filter_nil, List.map_nil,
        List.append_nil]
      rfl
  | cons t ts ih =>
      have ht := h t (List.mem_cons_self _ _)
      have hts : ∀ x ∈ ts, ∀ a ∈ x.annotations, ∀ r ∈ a.result, r.value.text ≠ some [] :=
        fun x hx => h x (List.mem_cons_of_mem _ hx)
      simp only [List.enumFrom, List.foldlM_cons]
      have hbody : chainBody acc (n + 1, t) =
          if concatText t = "" then Except.ok acc
          else Except.ok (acc ++ [[("text", concatText t)]]) := by
        simp only [chainBody, printFirstTask]
        rw [if_neg (Nat.succ_ne_zero n), exceptBind_ok, taskText_ok t ht, exceptBind_ok]
      rw [hbody]
      by_cases hcc : concatText t = ""
      · rw [if_pos hcc, exceptBind_ok, ih (n + 1) acc hts]
        have : (t :: ts).filter (fun t => concatText t ≠ "") =
            ts.filter (fun t => concatText t ≠ "") := by
          simp [List.filter_cons, hcc]
        rw [this]
      · rw [if_neg hcc, exceptBind_ok, ih (n + 1) _ hts]
        have : (t :: ts).filter (fun t => concatText t ≠ "") =
            t :: ts.filter (fun t => concatText t ≠ "") := by
          simp [List.filter_cons, hcc]
        rw [this, List.map_cons, List.append_assoc]
        rfl

/-- Claim C1: in the preannotation loop of the OCR-to-NER notebook, the
loop body is claimed to evaluate without error and create a prediction with
model_version `random-ai-prediction`, score 0.99 and the hard-coded PER
span.  In fact the `result` list names `predicted_label`, which is assigned
nowhere in the notebook, so for any non-empty task list the loop raises
`NameError: predicted_label` on its first iteration and no prediction is
ever created. -/
theorem claim1_preannotation_name_error :
    "predicted_label" ∉ ocrNotebookNames ∧
    preannotationCell [101] = Except.error (PyErr.nameError "predicted_label") ∧
    preannotationCell [101, 102, 103] = Except.error (PyErr.nameError "predicted_label") :=
  ⟨by decide, rfl, rfl⟩

/-- Claim C2, counterexample: the chaining cell does not create a task for
every exported task with non-empty concatenated text.  On a task list whose
first task has no annotations, the `print(json.dumps(task.annotations[0]))`
investigation line raises `IndexError`, the loop aborts, and the second
task's non-empty text `OCR text` is never uploaded. -/
theorem claim2_chain_counterexample :
    chainCell chainCrashTasks = Except.error PyErr.indexError ∧
    chainCell chainCrashTasks ≠
      Except.ok ((chainCrashTasks.filter (fun t => concatText t ≠ "")).map
        (fun t => [("text", concatText t)])) :=
  ⟨by decide, by decide⟩

/-- Claim C2 (amended): provided the first listed task has at least one
annotation (the cell's investigation print indexes `task.annotations[0]`)
and every `text` list encountered is non-empty (the cell indexes `[0]`),
a task is created in the second project exactly for those exported tasks
whose concatenated text — over annotations in order and results in order,
the first element of each result value's `text` list — is non-empty, with
data exactly `{'text': text}`, in input order; empty concatenations produce
no upload. -/
theorem claim2_chain_amended (tasks : List LSTask)
    (h0 : ∀ t ∈ tasks.take 1, t.annotations ≠ [])
    (hne : ∀ t ∈ tasks, ∀ a ∈ t.annotations, ∀ r ∈ a.result, r.value.text ≠ some []) :
    chainCell tasks =
      Except.ok ((tasks.filter (fun t => concatText t ≠ "")).map
        (fun t => [("text", concatText t)])) := by
  cases tasks with
  | nil => rfl
  | cons t ts =>
      have ht : t.annotations ≠ [] := h0 t (by simp)
      have htt := hne t (List.mem_cons_self _ _)
      have hts : ∀ x ∈ ts, ∀ a ∈ x.annotations, ∀ r ∈ a.result, r.value.text ≠ some [] :=
        fun x hx => hne x (List.mem_cons_of_mem _ hx)
      show (List.enum (t :: ts)).foldlM chainBody [] = _
      have henum : List.enum (t :: ts) = (0, t) :: List.enumFrom (0 + 1) ts := rfl
      rw [henum, List.foldlM_cons]
      have hprint : printFirstTask 0 t = Except.ok () := by
        cases hA : t.annotations with
        | nil => exact absurd hA ht
        | cons a as => simp [printFirstTask, hA]
      have hbody : chainBody [] (0, t) =
          if concatText t = "" then Except.ok [] else Except.ok [[("text", concatText t)]] := by
        simp only [chainBody, hprint, exceptBind_ok]
        rw [taskText_ok t htt, exceptBind_ok, List.nil_append]
      rw [hbody]
      by_cases hcc : concatText t = ""
      · rw [if_pos hcc, exceptBind_ok, chain_fold_tail ts 0 [] hts]
        have : (t :: ts).filter (fun t => concatText t ≠ "") =
            ts.filter (fun t => concatText t ≠ "") := by
          simp [List.filter_cons, hcc]
        rw [this, List.nil_append]
      · rw [if_neg hcc, exceptBind_ok, chain_fold_tail ts 0 _ hts]
        have : (t :: ts).filter (fun t => concatText t ≠ "") =
            t :: ts.filter (fun t => concatText t ≠ "") := by
          simp [List.filter_cons, hcc]
        rw [this, List.map_cons]
        rfl

/-- Witness for claim C2: the amended chaining theorem applied to the
concrete task list `chainWitnessTasks`. -/
theorem claim2_chain_witness :
    chainCell chainWitnessTasks =
      Except.ok ((chainWitnessTasks.filter (fun t => concatText t ≠ "")).map
        (fun t => [("text", concatText t)])) :=
  claim2_chain_amended chainWitnessTasks (by decide) (by decide)

/-- Claim C3, counterexample: a failed HTTP download does not surface as an
exception.  At status code 404 the download cell returns normally, handling
the failure in place by printing a message — a locally-handled
partial-failure branch. -/
theorem claim3_download_counterexample :
    downloadCell 404 "response body" =
      Except.ok (DownloadEffect.printedMessage
        "Failed to download the file. Status code: 404") := by decide

/-- Claim C3 (amended): no script installs a retry, backoff or
circuit-breaker, and a malformed conversation line surfaces as the JSON
library's own exception, propagated unchanged out of
`create_conversations`; but the dialogues.jsonl download cell is an
exception to "no locally-handled failure branch": on every non-200 status
it prints a failure message and continues instead of raising. -/
theorem claim3_error_handling_amended :
    (∀ (status_code : Nat) (content : String), status_code ≠ 200 →
      downloadCell status_code content = Except.ok (DownloadEffect.printedMessage
        ("Failed to download the file. Status code: " ++ toString status_code)) ∧
      ∀ e : PyErr, downloadCell status_code content ≠ Except.error e) ∧
    (∀ (c : String) (rest : List String) (lines : LineDict) (a b mid ids : String) (e : PyErr),
      lineParts c = [a, b, mid, ids] →
      loadsStrList (replaceQuotes ids) = Except.error e →
      create_conversations (c :: rest) lines = Except.error e) := by
  constructor
  · intro status_code content hs
    constructor
    · simp [downloadCell, hs]
    · intro e
      simp [downloadCell, hs]
  · intro c rest lines a b mid ids e hparts hload
    have hconv : convStep lines [] c = Except.error e := by
      unfold convStep
      rw [hparts]
      show loadsStrList (replaceQuotes ids) >>= _ = Except.error e
      rw [hload]
      rfl
    show (c :: rest).foldlM (convStep lines) [] = Except.error e
    rw [List.foldlM_cons, hconv, exceptBind_error]

/-- Witness for claim C3: the amended error-handling theorem applied at
status code 404 and at a conversation record whose line-id field `L1 L2` is
malformed JSON. -/
theorem claim3_error_handling_witness :
    (downloadCell 404 "body" = Except.ok (DownloadEffect.printedMessage
        ("Failed to download the file. Status code: " ++ toString 404)) ∧
      ∀ e : PyErr, downloadCell 404 "body" ≠ Except.error e) ∧
    create_conversations ["u0 +++$+++ u2 +++$+++ m0 +++$+++ L1 L2"] [] =
      Except.error (PyErr.jsonDecodeError "Expecting value") :=
  ⟨claim3_error_handling_amended.1 404 "body" (by decide),
   claim3_error_handling_amended.2 "u0 +++$+++ u2 +++$+++ m0 +++$+++ L1 L2" [] []
     "u0" "u2" "m0" "L1 L2" (PyErr.jsonDecodeError "Expecting value")
     (by decide) (by decide)⟩

theorem appendStep_fold_ok {α β : Type _} (g : α → Except PyErr β) (f : α → β)
    (l : List α) (acc : List β) (h : ∀ a ∈ l, g a = Except.ok (f a)) :
    l.foldlM (appendStep g) acc = Except.ok (acc ++ l.map f) := by
  induction l generalizing acc with
  | nil => simp only [List.foldlM_nil, List.map_nil, List.append_nil]; rfl
  | cons a l ih =>
      have ha := h a (List.mem_cons_self _ _)
      have hl : ∀ x ∈ l, g x = Except.ok (f x) := fun x hx => h x (List.mem_cons_of_mem _ hx)
      rw [List.foldlM_cons,
        show appendStep g acc a = Except.ok (acc ++ [f a]) by simp [appendStep, ha]; rfl,
        exceptBind_ok, ih _ hl]
      simp [List.append_assoc]

theorem appendStep_fold_mem {α β : Type _} (g : α → Except PyErr β)
    (l : List α) (acc out : List β) (hfold : l.foldlM (appendStep g) acc = Except.ok out) :
    ∀ b ∈ out, b ∈ acc ∨ ∃ a ∈ l, g a = Except.ok b := by
  induction l generalizing acc with
  | nil =>
      intro b hb
      have : acc = out := by
        have : (Except.ok acc : Except PyErr (List β)) = Except.ok out := hfold
        exact Except.ok.inj this
      exact Or.inl (this ▸ hb)
  | cons a l ih =>
      intro b hb
      rw [List.foldlM_cons] at hfold
      cases hga : g a with
      | error e =>
          rw [show appendStep g acc a = Except.error e by simp [appendStep, hga]; rfl] at hfold
          exact absurd hfold (by simp [exceptBind_error])
      | ok v =>
          rw [show appendStep g acc a = Except.ok (acc ++ [v]) by simp [appendStep, hga]; rfl,
            exceptBind_ok] at hfold
          rcases ih _ hfold b hb with hmem | ⟨x, hx, hgx⟩
          · rcases List.mem_append.mp hmem with h' | h'
            · exact Or.inl h'
            · have : b = v := by simpa using h'
              exact Or.inr ⟨a, List.mem_cons_self _ _, this ▸ hga⟩
          · exact Or.inr ⟨x, List.mem_cons_of_mem _ hx, hgx⟩

theorem transformTurn_ok (t : SupportTurn) (h : turnWF t) :
    transformTurn t = Except.ok (turnTask t) := by
  obtain ⟨hsr, hut⟩ := h
  obtain ⟨sr, hsr⟩ := Option.isSome_iff_exists.mp hsr
  obtain ⟨ut, hut⟩ := Option.isSome_iff_exists.mp hut
  simp [transformTurn, getKey, hsr, hut, turnTask, exceptBind_ok]

theorem transformDialogue_ok (d : SupportDialogue) (h : dialogueWF d) :
    transformDialogue d = Except.ok (dialogueTask d) := by
  obtain ⟨hsome, hturns⟩ := h
  obtain ⟨ts, hts⟩ := Option.isSome_iff_exists.mp hsome
  have hwf : ∀ t ∈ ts, turnWF t := by
    intro t ht
    exact hturns t (by rw [hts]; simpa using ht)
  unfold transformDialogue
  rw [show getKey d.turns "turns" = Except.ok ts by simp [getKey, hts], exceptBind_ok]
  rw [appendStep_fold_ok transformTurn turnTask ts []
    (fun t ht => transformTurn_ok t (hwf t ht)), exceptBind_ok]
  simp [dialogueTask, hts]

/-- Claim C4: the customer-support transformation is a single linear pass:
on a well-formed input (every line carries `turns`, every turn carries
`speaker_role` and `utterance`) the transformed list has exactly one
element per input line, in input order, and the i-th element is
`{'dialogue': turns}` with each turn mapped one-to-one and in order,
renaming `speaker_role` to `author` and `utterance` to `text`. -/
theorem claim4_transform_shape (dialogues : List SupportDialogue)
    (h : ∀ d ∈ dialogues, dialogueWF d) :
    transformedDialogues dialogues = Except.ok (dialogues.map dialogueTask) := by
  unfold transformedDialogues
  rw [appendStep_fold_ok transformDialogue dialogueTask dialogues []
    (fun d hd => transformDialogue_ok d (h d hd))]
  rw [List.nil_append]

/-- Witness for claim C4 at a concrete two-line input. -/
theorem claim4_transform_shape_witness :
    transformedDialogues
      [⟨some [⟨some "Agent", some "hello", none⟩, ⟨some "Customer", some "hi", some ["PayBill"]⟩]⟩,
       ⟨some [⟨some "Agent", some "bye", none⟩]⟩] =
    Except.ok (List.map dialogueTask
      [⟨some [⟨some "Agent", some "hello", none⟩, ⟨some "Customer", some "hi", some ["PayBill"]⟩]⟩,
       ⟨some [⟨some "Agent", some "bye", none⟩]⟩]) :=
  claim4_transform_shape _ (by decide)

theorem exceptFoldlM_append {α β : Type _} (f : β → α → Except PyErr β) (init : β)
    (xs ys : List α) :
    (xs ++ ys).foldlM f init = xs.foldlM f init >>= fun m => ys.foldlM f m := by
  induction xs generalizing init with
  | nil => rfl
  | cons x xs ih =>
      cases hfx : f init x with
      | error e => simp [List.foldlM_cons, hfx, exceptBind_error]
      | ok v => simp [List.foldlM_cons, hfx, exceptBind_ok, ih]

/-- Claim C6: every dataset transformation is a deterministic function of
its input lines: identical inputs give identical outputs for
`parse_movie_lines`, `create_conversations` and the customer-support
dialogue transformation.  (The embedded code takes no input other than the
parsed file contents — no randomness, clock or ambient state.) -/
theorem claim6_deterministic (ls1 ls2 cs1 cs2 : List String)
    (ds1 ds2 : List SupportDialogue)
    (h1 : ls1 = ls2) (h2 : cs1 = cs2) (h3 : ds1 = ds2) :
    parse_movie_lines ls1 = parse_movie_lines ls2 ∧
    create_conversations cs1 (parse_movie_lines ls1) =
      create_conversations cs2 (parse_movie_lines ls2) ∧
    transformedDialogues ds1 = transformedDialogues ds2 := by
  subst h1; subst h2; subst h3
  exact ⟨rfl, rfl, rfl⟩

/-- Witness for claim C6 at concrete equal inputs. -/
theorem claim6_deterministic_witness :
    parse_movie_lines ["x +++$+++ u +++$+++ m +++$+++ N +++$+++ T"] =
      parse_movie_lines ["x +++$+++ u +++$+++ m +++$+++ N +++$+++ T"] ∧
    create_conversations ["r"] (parse_movie_lines ["x +++$+++ u +++$+++ m +++$+++ N +++$+++ T"]) =
      create_conversations ["r"] (parse_movie_lines ["x +++$+++ u +++$+++ m +++$+++ N +++$+++ T"]) ∧
    transformedDialogues [⟨some []⟩] = transformedDialogues [⟨some []⟩] :=
  claim6_deterministic _ _ _ _ _ _ rfl rfl rfl

/-- Claim C7: each parsing and transformation routine is single-pass and
total.  `parse_movie_lines`, `create_conversations` and the dialogue
transformation process their input strictly left to right — the run on
`xs ++ ys` is the run on `xs` continued over `ys`, so each line is visited
exactly once — and on a well-formed dialogue each turn is mapped exactly
once.  All three are total Lean functions, hence terminate on every finite
input. -/
theorem claim7_single_pass :
    (∀ xs ys : List String,
      parse_movie_lines (xs ++ ys) = ys.foldl parseStep (parse_movie_lines xs)) ∧
    (∀ (xs ys : List String) (lines : LineDict),
      create_conversations (xs ++ ys) lines =
        create_conversations xs lines >>= fun m => ys.foldlM (convStep lines) m) ∧
    (∀ xs ys : List SupportDialogue,
      transformedDialogues (xs ++ ys) =
        transformedDialogues xs >>= fun acc => ys.foldlM (appendStep transformDialogue) acc) ∧
    (∀ (d : SupportDialogue) (ts : List SupportTurn), d.turns = some ts →
      (∀ t ∈ ts, turnWF t) →
      transformDialogue d = Except.ok [("dialogue", ts.map turnTask)]) := by
  refine ⟨?_, ?_, ?_, ?_⟩
  · intro xs ys
    exact List.foldl_append _ _ xs ys
  · intro xs ys lines
    exact exceptFoldlM_append (convStep lines) [] xs ys
  · intro xs ys
    exact exceptFoldlM_append (appendStep transformDialogue) [] xs ys
  · intro d ts hts hwf
    have hd : dialogueWF d := by
      refine ⟨by rw [hts]; rfl, ?_⟩
      intro t ht
      exact hwf t (by rw [hts] at ht; simpa using ht)
    rw [transformDialogue_ok d hd]
    simp [dialogueTask, hts]

/-- Witness for claim C7 at concrete inputs. -/
theorem claim7_single_pass_witness :
    parse_movie_lines (["a"] ++ ["b"]) = ["b"].foldl parseStep (parse_movie_lines ["a"]) ∧
    create_conversations (["a"] ++ ["b"]) [] =
      (create_conversations ["a"] [] >>= fun m => ["b"].foldlM (convStep []) m) ∧
    transformedDialogues ([⟨some []⟩] ++ [⟨none⟩]) =
      (transformedDialogues [⟨some []⟩] >>= fun acc =>
        [(⟨none⟩ : SupportDialogue)].foldlM (appendStep transformDialogue) acc) ∧
    transformDialogue ⟨some [⟨some "A", some "u", none⟩]⟩ =
      Except.ok [("dialogue", [⟨some "A", some "u", none⟩].map turnTask)] :=
  ⟨claim7_single_pass.1 ["a"] ["b"],
   claim7_single_pass.2.1 ["a"] ["b"] [],
   claim7_single_pass.2.2.1 [⟨some []⟩] [⟨none⟩],
   claim7_single_pass.2.2.2 ⟨some [⟨some "A", some "u", none⟩]⟩
     [⟨some "A", some "u", none⟩] rfl (by decide)⟩

theorem parseStep_not5 (d : LineDict) (s : String) (h : (lineParts s).length ≠ 5) :
    parseStep d s = d := by
  unfold parseStep
  split
  · next a b c n t heq => exact absurd (by rw [heq]; rfl) h
  · rfl

theorem parseStep_five (d : LineDict) (s : String) (a b c n t : String)
    (h : lineParts s = [a, b, c, n, t]) :
    parseStep d s = dictSet d a [("author", n), ("text", t)] := by
  unfold parseStep
  rw [h]

theorem parse_fold_keys (lines_content : List String) (d : LineDict) (k : String)
    (h : k ∈ dictKeys (lines_content.foldl parseStep d)) :
    k ∈ dictKeys d ∨ ∃ l ∈ lines_content, (lineParts l).length = 5 ∧ (lineParts l).head? = some k := by
  induction lines_content generalizing d with
  | nil => exact Or.inl h
  | cons l rest ih =>
      rw [List.foldl_cons] at h
      rcases ih (parseStep d l) h with hk | ⟨x, hx, hlen, hhead⟩
      · by_cases h5 : (lineParts l).length = 5
        · obtain ⟨a, b, c, n, t, heq⟩ : ∃ a b c n t, lineParts l = [a, b, c, n, t] := by
            rcases hl : lineParts l with _ | ⟨a, _ | ⟨b, _ | ⟨c, _ | ⟨n, _ | ⟨t, _ | u⟩⟩⟩⟩⟩ <;>
              simp [hl] at h5 ⊢
          rw [parseStep_five d l a b c n t heq] at hk
          rcases dictKeys_dictSet d a [("author", n), ("text", t)] with hset | hset
          · rw [hset] at hk
            rcases List.mem_append.mp hk with hk | hk
            · exact Or.inl hk
            · have : k = a := by simpa using hk
              exact Or.inr ⟨l, List.mem_cons_self _ _, by rw [heq]; exact rfl,
                by rw [heq, this]; rfl⟩
          · rw [hset] at hk
            exact Or.inl hk
        · rw [parseStep_not5 d l h5] at hk
          exact Or.inl hk
      · exact Or.inr ⟨x, List.mem_cons_of_mem _ hx, hlen, hhead⟩

/-- Claim C8: `parse_movie_lines` is total on any input list and never
raises (its embedding returns a plain `LineDict`, with no error case): a
line that does not split into exactly five ` +++$+++ `-separated fields
contributes nothing to the result, every key of the returned dict is the
first field of some well-formed line, and a repeated line id overwrites the
earlier entry in place with the later line's entry. -/
theorem claim8_parse_movie_lines_safety :
    (∀ (xs ys : List String) (bad : String), (lineParts bad).length ≠ 5 →
      parse_movie_lines (xs ++ bad :: ys) = parse_movie_lines (xs ++ ys)) ∧
    (∀ (lines_content : List String) (k : String),
      k ∈ dictKeys (parse_movie_lines lines_content) →
      ∃ l ∈ lines_content, (lineParts l).length = 5 ∧ (lineParts l).head? = some k) ∧
    (∀ (xs : List String) (l a b c n t : String), lineParts l = [a, b, c, n, t] →
      parse_movie_lines (xs ++ [l]) =
        dictSet (parse_movie_lines xs) a [("author", n), ("text", t)] ∧
      dictGet? (parse_movie_lines (xs ++ [l])) a = some [("author", n), ("text", t)]) := by
  refine ⟨?_, ?_, ?_⟩
  · intro xs ys bad hbad
    unfold parse_movie_lines
    rw [List.foldl_append, List.foldl_append, List.foldl_cons, parseStep_not5 _ bad hbad]
  · intro lines_content k hk
    rcases parse_fold_keys lines_content [] k hk with h | h
    · simp [dictKeys] at h
    · exact h
  · intro xs l a b c n t hparts
    have hrw : parse_movie_lines (xs ++ [l]) =
        dictSet (parse_movie_lines xs) a [("author", n), ("text", t)] := by
      unfold parse_movie_lines
      rw [List.foldl_append, List.foldl_cons, List.foldl_nil, parseStep_five _ l a b c n t hparts]
    refine ⟨hrw, ?_⟩
    rw [hrw, dictGet?_dictSet, if_pos rfl]

/-- Witness for claim C8 at concrete corpus lines: a malformed line, the
key of a well-formed line, and a repeated line id whose later entry wins. -/
theorem claim8_parse_movie_lines_safety_witness :
    parse_movie_lines (["L1 +++$+++ u0 +++$+++ m0 +++$+++ B +++$+++ Hi"] ++ "garbage" ::
        ["L2 +++$+++ u1 +++$+++ m0 +++$+++ C +++$+++ Yo"]) =
      parse_movie_lines (["L1 +++$+++ u0 +++$+++ m0 +++$+++ B +++$+++ Hi"] ++
        ["L2 +++$+++ u1 +++$+++ m0 +++$+++ C +++$+++ Yo"]) ∧
    (∃ l ∈ ["L1 +++$+++ u0 +++$+++ m0 +++$+++ B +++$+++ Hi"],
      (lineParts l).length = 5 ∧ (lineParts l).head? = some "L1") ∧
    dictGet? (parse_movie_lines (["L1 +++$+++ u0 +++$+++ m0 +++$+++ B +++$+++ Hi"] ++
        ["L1 +++$+++ u9 +++$+++ m0 +++$+++ B2 +++$+++ Bye"])) "L1" =
      some [("author", "B2"), ("text", "Bye")] :=
  ⟨claim8_parse_movie_lines_safety.1 _ _ "garbage" (by decide),
   claim8_parse_movie_lines_safety.2.1 ["L1 +++$+++ u0 +++$+++ m0 +++$+++ B +++$+++ Hi"] "L1"
     (by decide),
   (claim8_parse_movie_lines_safety.2.2 ["L1 +++$+++ u0 +++$+++ m0 +++$+++ B +++$+++ Hi"]
     "L1 +++$+++ u9 +++$+++ m0 +++$+++ B2 +++$+++ Bye" "L1" "u9" "m0" "B2" "Bye" (by decide)).2⟩

theorem parse_fold_shape (lines_content : List String) (d : LineDict)
    (hd : ∀ p ∈ d, dictKeys p.2 = ["author", "text"]) :
    ∀ p ∈ lines_content.foldl parseStep d, dictKeys p.2 = ["author", "text"] := by
  induction lines_content generalizing d with
  | nil => exact hd
  | cons l rest ih =>
      rw [List.foldl_cons]
      refine ih (parseStep d l) ?_
      intro p hp
      unfold parseStep at hp
      rcases hsplit : lineParts l with _ | ⟨a, _ | ⟨b, _ | ⟨c, _ | ⟨n, _ | ⟨t, _ | u⟩⟩⟩⟩⟩ <;>
        rw [hsplit] at hp
      all_goals first
        | exact hd p hp
        | (rcases mem_dictSet hp with h | h
           · rw [h]; rfl
           · exact hd p h)

theorem transformTurn_shape (t : SupportTurn) (u : List (String × String))
    (h : transformTurn t = Except.ok u) : dictKeys u = ["author", "text"] := by
  unfold transformTurn at h
  cases hsr : t.speaker_role with
  | none => rw [hsr] at h; exact absurd h (by simp [getKey, exceptBind_error])
  | some sr =>
      cases hut : t.utterance with
      | none =>
          rw [hsr, hut] at h
          exact absurd h (by simp [getKey, exceptBind_ok, exceptBind_error])
      | some ut =>
          rw [hsr, hut] at h
          have : Except.ok [("author", sr), ("text", ut)] = Except.ok u := h
          rw [← Except.ok.inj this]
          rfl

theorem transformDialogue_shape (d : SupportDialogue) (td : DialogueTask)
    (h : transformDialogue d = Except.ok td) :
    ∃ turns, td = [("dialogue", turns)] ∧ ∀ u ∈ turns, dictKeys u = ["author", "text"] := by
  unfold transformDialogue at h
  cases hts : d.turns with
  | none => rw [hts] at h; exact absurd h (by simp [getKey, exceptBind_error])
  | some ts =>
      rw [hts] at h
      rw [show getKey (some ts) "turns" = Except.ok ts from rfl, exceptBind_ok] at h
      cases hfold : ts.foldlM (appendStep transformTurn) [] with
      | error e => rw [hfold] at h; exact absurd h (by simp [exceptBind_error])
      | ok turns =>
          rw [hfold, exceptBind_ok] at h
          refine ⟨turns, (Except.ok.inj h).symm, ?_⟩
          intro u hu
          rcases appendStep_fold_mem transformTurn ts [] turns hfold u hu with h' | ⟨t, _, ht⟩
          · simp at h'
          · exact transformTurn_shape t u ht

theorem chainBody_shape (acc : List NerTask) (p : Nat × LSTask) (out : List NerTask)
    (h : chainBody acc p = Except.ok out) :
    out = acc ∨ ∃ s, out = acc ++ [[("text", s)]] := by
  unfold chainBody at h
  cases hpr : printFirstTask p.1 p.2 with
  | error e => rw [hpr] at h; exact absurd h (by simp [exceptBind_error])
  | ok u =>
      rw [hpr, exceptBind_ok] at h
      cases htx : taskText p.2 with
      | error e => rw [htx] at h; exact absurd h (by simp [exceptBind_error])
      | ok text =>
          rw [htx, exceptBind_ok] at h
          by_cases he : text = ""
          · rw [if_pos he] at h
            exact Or.inl (Except.ok.inj h).symm
          · rw [if_neg he] at h
            exact Or.inr ⟨text, (Except.ok.inj h).symm⟩

theorem chain_fold_shape (l : List (Nat × LSTask)) (acc out : List NerTask)
    (h : l.foldlM chainBody acc = Except.ok out)
    (hacc : ∀ x ∈ acc, dictKeys x = ["text"]) :
    ∀ x ∈ out, dictKeys x = ["text"] := by
  induction l generalizing acc with
  | nil =>
      have : acc = out := Except.ok.inj h
      exact this ▸ hacc
  | cons p l ih =>
      rw [List.foldlM_cons] at h
      cases hb : chainBody acc p with
      | error e => rw [hb] at h; exact absurd h (by simp [exceptBind_error])
      | ok acc' =>
          rw [hb, exceptBind_ok] at h
          refine ih acc' h ?_
          rcases chainBody_shape acc p acc' hb with h' | ⟨s, h'⟩
          · exact h' ▸ hacc
          · subst h'
            intro x hx
            rcases List.mem_append.mp hx with hx | hx
            · exact hacc x hx
            · have : x = [("text", s)] := by simpa using hx
              rw [this]
              rfl

/-- Claim C5: every task dict handed to the platform has the flat shape its
labeling config expects, with no extra or missing keys: every entry of the
`parse_movie_lines` dict (the turn dicts of the movie dialogue tasks) has
exactly the keys `author` and `text`; every customer-support task is a dict
with exactly the key `dialogue` whose value is a list of dicts with exactly
the keys `author` and `text`; and every chained NER task's data has exactly
the key `text`.  (All values are strings by the types of the embedding.) -/
theorem claim5_task_shapes :
    (∀ (lines_content : List String), ∀ p ∈ parse_movie_lines lines_content,
      dictKeys p.2 = ["author", "text"]) ∧
    (∀ (dialogues : List SupportDialogue) (out : List DialogueTask),
      transformedDialogues dialogues = Except.ok out →
      ∀ td ∈ out, ∃ turns, td = [("dialogue", turns)] ∧
        ∀ u ∈ turns, dictKeys u = ["author", "text"]) ∧
    (∀ (tasks : List LSTask) (out : List NerTask),
      chainCell tasks = Except.ok out → ∀ nt ∈ out, dictKeys nt = ["text"]) := by
  refine ⟨?_, ?_, ?_⟩
  · intro lines_content p hp
    exact parse_fold_shape lines_content [] (by simp) p hp
  · intro dialogues out hout td htd
    rcases appendStep_fold_mem transformDialogue dialogues [] out hout td htd with h | ⟨d, _, hd⟩
    · simp at h
    · exact transformDialogue_shape d td hd
  · intro tasks out hout nt hnt
    exact chain_fold_shape (List.enum tasks) [] out hout (by simp) nt hnt

/-- Witness for claim C5 at concrete runs of all three pipelines. -/
theorem claim5_task_shapes_witness :
    dictKeys ("L1", [("author", "B"), ("text", "Hi")]).2 = ["author", "text"] ∧
    (∃ turns, [("dialogue", [[("author", "A"), ("text", "u")]])] = [("dialogue", turns)] ∧
      ∀ u ∈ turns, dictKeys u = ["author", "text"]) ∧
    dictKeys [("text", "There it is.")] = ["text"] :=
  ⟨claim5_task_shapes.1 ["L1 +++$+++ u0 +++$+++ m0 +++$+++ B +++$+++ Hi"]
     ("L1", [("author", "B"), ("text", "Hi")]) (by decide),
   claim5_task_shapes.2.1 [⟨some [⟨some "A", some "u", none⟩]⟩]
     [[("dialogue", [[("author", "A"), ("text", "u")]])]] (by decide)
     [("dialogue", [[("author", "A"), ("text", "u")]])] (by decide),
   claim5_task_shapes.2.2 chainWitnessTasks [[("text", "There it is.")]] (by decide)
     [("text", "There it is.")] (by decide)⟩

theorem combineOpt_nil (o : Option (List DialogueRecord)) : combineOpt o [] = o := by
  cases o with
  | none => rfl
  | some b => simp [combineOpt]

theorem convStep_not4 (lines : LineDict) (m : MovieDict) (c : String)
    (h : (lineParts c).length ≠ 4) : convStep lines m c = Except.ok m := by
  unfold convStep
  split
  · next a b mid ids heq => exact absurd (by rw [heq]; rfl) h
  · rfl

theorem recordEntry_not4 (lines : LineDict) (c : String)
    (h : (lineParts c).length ≠ 4) : recordEntry lines c = none := by
  unfold recordEntry
  split
  · next a b mid ids heq => exact absurd (by rw [heq]; rfl) h
  · rfl

theorem convStep_four_ok (lines : LineDict) (m : MovieDict) (c : String)
    (a b mid ids : String) (line_ids : List String)
    (hparts : lineParts c = [a, b, mid, ids])
    (hload : loadsStrList (replaceQuotes ids) = Except.ok line_ids) :
    convStep lines m c = Except.ok
      (dictSet (if dictContains m mid then m else dictSet m mid [])
        mid
        (((dictGet? (if dictContains m mid then m else dictSet m mid []) mid).getD []) ++
          [[("dialogue", line_ids.filterMap (fun line_id => dictGet? lines line_id))]])) := by
  unfold convStep
  rw [hparts]
  show loadsStrList (replaceQuotes ids) >>= _ = _
  rw [hload, exceptBind_ok]

theorem convStep_four_error (lines : LineDict) (m : MovieDict) (c : String)
    (a b mid ids : String) (e : PyErr)
    (hparts : lineParts c = [a, b, mid, ids])
    (hload : loadsStrList (replaceQuotes ids) = Except.error e) :
    convStep lines m c = Except.error e := by
  unfold convStep
  rw [hparts]
  show loadsStrList (replaceQuotes ids) >>= _ = _
  rw [hload]
  rfl

theorem convStep_updated_get (m : MovieDict) (mid : String) (entry : DialogueRecord) (k : String) :
    dictGet? (dictSet (if dictContains m mid then m else dictSet m mid [])
        mid (((dictGet? (if dictContains m mid then m else dictSet m mid []) mid).getD []) ++
          [entry])) k =
      if k = mid then some (((dictGet? m mid).getD []) ++ [entry]) else dictGet? m k := by
  by_cases hc : dictContains m mid
  · rw [if_pos hc, dictGet?_dictSet]
  · rw [if_neg hc]
    have hmiss : dictGet? m mid = none := by
      unfold dictContains at hc
      cases hg : dictGet? m mid with
      | none => rfl
      | some v => rw [hg] at hc; simp at hc
    rw [dictGet?_dictSet]
    by_cases hk : k = mid
    · subst hk
      rw [if_pos rfl, if_pos rfl, dictGet?_dictSet, if_pos rfl, hmiss]
      rfl
    · rw [if_neg hk, if_neg hk, dictGet?_dictSet, if_neg hk]

theorem conv_fold_get (lines : LineDict) (conversations_content : List String)
    (m0 m : MovieDict)
    (h : conversations_content.foldlM (convStep lines) m0 = Except.ok m) :
    ∀ mid, dictGet? m mid =
      combineOpt (dictGet? m0 mid) (groupVal lines conversations_content mid) := by
  induction conversations_content generalizing m0 with
  | nil =>
      intro mid
      have : m0 = m := Except.ok.inj h
      rw [← this, groupVal, List.filterMap_nil, List.filter_nil, List.map_nil, combineOpt_nil]
  | cons c cs ih =>
      intro mid
      rw [List.foldlM_cons] at h
      by_cases h4 : (lineParts c).length = 4
      · obtain ⟨a, b, mid', ids, hparts⟩ : ∃ a b mid' ids, lineParts c = [a, b, mid', ids] := by
          rcases hl : lineParts c with _ | ⟨a, _ | ⟨b, _ | ⟨x, _ | ⟨y, _ | u⟩⟩⟩⟩ <;>
            simp [hl] at h4 ⊢
        cases hload : loadsStrList (replaceQuotes ids) with
        | error e =>
            rw [convStep_four_error lines m0 c a b mid' ids e hparts hload] at h
            exact absurd h (by simp [exceptBind_error])
        | ok line_ids =>
            rw [convStep_four_ok lines m0 c a b mid' ids line_ids hparts hload,
              exceptBind_ok] at h
            have hrec : recordEntry lines c =
                some (mid', [("dialogue",
                  line_ids.filterMap (fun line_id => dictGet? lines line_id))]) := by
              unfold recordEntry
              rw [hparts]
              show (match loadsStrList (replaceQuotes ids) with
                | Except.ok line_ids => some (mid', [("dialogue",
                    line_ids.filterMap (fun line_id => dictGet? lines line_id))])
                | Except.error _ => none) = _
              rw [hload]
            have hgroup : groupVal lines (c :: cs) mid =
                if mid' = mid then
                  [("dialogue", line_ids.filterMap (fun line_id => dictGet? lines line_id))] ::
                    groupVal lines cs mid
                else groupVal lines cs mid := by
              unfold groupVal
              rw [List.filterMap_cons, hrec]
              by_cases hmm : mid' = mid
              · simp [List.filter_cons, hmm]
              · simp [List.filter_cons, hmm]
            rw [ih _ h, convStep_updated_get, hgroup]
            by_cases hmm : mid = mid'
            · subst hmm
              rw [if_pos rfl, if_pos rfl]
              cases hg : dictGet? m0 mid with
              | none => simp [combineOpt]
              | some v => simp [combineOpt]
            · rw [if_neg hmm, if_neg (fun he => hmm he.symm)]
      · rw [convStep_not4 lines m0 c h4, exceptBind_ok] at h
        have : groupVal lines (c :: cs) mid = groupVal lines cs mid := by
          unfold groupVal
          rw [List.filterMap_cons, recordEntry_not4 lines c h4]
        rw [this]
        exact ih _ h mid

theorem combineOpt_none (l : List DialogueRecord) :
    combineOpt none l = if l = [] then none else some l := by
  cases l with
  | nil => rfl
  | cons x xs => simp [combineOpt]

theorem convStep_nodup (lines : LineDict) (m0 m1 : MovieDict) (c : String)
    (h : convStep lines m0 c = Except.ok m1) (hn : (dictKeys m0).Nodup) :
    (dictKeys m1).Nodup := by
  by_cases h4 : (lineParts c).length = 4
  · obtain ⟨a, b, mid, ids, hparts⟩ : ∃ a b mid ids, lineParts c = [a, b, mid, ids] := by
      rcases hl : lineParts c with _ | ⟨a, _ | ⟨b, _ | ⟨x, _ | ⟨y, _ | u⟩⟩⟩⟩ <;>
        simp [hl] at h4 ⊢
    cases hload : loadsStrList (replaceQuotes ids) with
    | error e =>
        rw [convStep_four_error lines m0 c a b mid ids e hparts hload] at h
        exact absurd h (by simp)
    | ok line_ids =>
        rw [convStep_four_ok lines m0 c a b mid ids line_ids hparts hload] at h
        rw [← Except.ok.inj h]
        by_cases hc : dictContains m0 mid
        · rw [if_pos hc]
          exact nodup_dictKeys_dictSet hn
        · rw [if_neg hc]
          exact nodup_dictKeys_dictSet (nodup_dictKeys_dictSet hn)
  · rw [convStep_not4 lines m0 c h4] at h
    rw [← Except.ok.inj h]
    exact hn

theorem conv_fold_nodup (lines : LineDict) (conversations_content : List String)
    (m0 m : MovieDict)
    (h : conversations_content.foldlM (convStep lines) m0 = Except.ok m)
    (hn : (dictKeys m0).Nodup) : (dictKeys m).Nodup := by
  induction conversations_content generalizing m0 with
  | nil => exact (Except.ok.inj h) ▸ hn
  | cons c cs ih =>
      rw [List.foldlM_cons] at h
      cases hstep : convStep lines m0 c with
      | error e => rw [hstep] at h; exact absurd h (by simp [exceptBind_error])
      | ok m1 =>
          rw [hstep, exceptBind_ok] at h
          exact ih m1 h (convStep_nodup lines m0 m1 c hstep hn)

/-- Claim C9: for every conversation record splitting into exactly four
fields whose id list decodes, `create_conversations` builds its dialogue by
looking the listed line ids up in order in the parsed-lines dict, silently
dropping absent ids, and appends the (possibly empty) `{"dialogue": ...}`
record under its movie id; consequently, on a successful run, the value
stored under each movie id is exactly the non-empty list of that movie's
dialogue records in input order (and absent for movies with no records),
while records with any other field count contribute nothing (they are
skipped by `recordEntry`/`groupVal`). -/
theorem claim9_create_conversations (conversations_content : List String)
    (lines : LineDict) (m : MovieDict)
    (h : create_conversations conversations_content lines = Except.ok m) :
    (∀ (c a b mid ids : String) (line_ids : List String),
      lineParts c = [a, b, mid, ids] →
      loadsStrList (replaceQuotes ids) = Except.ok line_ids →
      recordEntry lines c = some (mid,
        [("dialogue", line_ids.filterMap (fun line_id => dictGet? lines line_id))])) ∧
    (∀ mid, dictGet? m mid =
      if groupVal lines conversations_content mid = [] then none
      else some (groupVal lines conversations_content mid)) ∧
    (∀ p ∈ m, p.2 ≠ [] ∧ p.2 = groupVal lines conversations_content p.1) := by
  have hget : ∀ mid, dictGet? m mid =
      if groupVal lines conversations_content mid = [] then none
      else some (groupVal lines conversations_content mid) := by
    intro mid
    have := conv_fold_get lines conversations_content [] m h mid
    rw [this]
    show combineOpt none _ = _
    exact combineOpt_none _
  refine ⟨?_, hget, ?_⟩
  · intro c a b mid ids line_ids hparts hload
    unfold recordEntry
    rw [hparts]
    show (match loadsStrList (replaceQuotes ids) with
      | Except.ok line_ids => some (mid, [("dialogue",
          line_ids.filterMap (fun line_id => dictGet? lines line_id))])
      | Except.error _ => none) = _
    rw [hload]
  · intro p hp
    have hn : (dictKeys m).Nodup :=
      conv_fold_nodup lines conversations_content [] m h (by simp [dictKeys])
    have hgp : dictGet? m p.1 = some p.2 := dictGet?_of_mem_nodup hn hp
    rw [hget p.1] at hgp
    by_cases hg : groupVal lines conversations_content p.1 = []
    · rw [if_pos hg] at hgp
      exact absurd hgp (by simp)
    · rw [if_neg hg] at hgp
      have : p.2 = groupVal lines conversations_content p.1 := (Option.some.inj hgp).symm
      exact ⟨this ▸ hg, this⟩

/-- Witness for claim C9 at the concrete conversations file. -/
theorem claim9_create_conversations_witness :
    dictGet? convWitnessResult "m0" =
      (if groupVal convWitnessLines convWitnessContent "m0" = [] then none
       else some (groupVal convWitnessLines convWitnessContent "m0")) ∧
    (("m0", [[("dialogue", [[("author", "BIANCA"), ("text", "Hi.")]])]]).2 ≠ [] ∧
      ("m0", [[("dialogue", [[("author", "BIANCA"), ("text", "Hi.")]])]]).2 =
        groupVal convWitnessLines convWitnessContent "m0") :=
  ⟨(claim9_create_conversations convWitnessContent convWitnessLines convWitnessResult
      (by decide)).2.1 "m0",
   (claim9_create_conversations convWitnessContent convWitnessLines convWitnessResult
      (by decide)).2.2 ("m0", [[("dialogue", [[("author", "BIANCA"), ("text", "Hi.")]])]])
      (by decide)⟩

theorem mem_foldl_insert (l : List String) (acc : Finset String) (x : String) :
    x ∈ l.foldl (fun a i => insert i a) acc ↔ x ∈ acc ∨ x ∈ l := by
  induction l generalizing acc with
  | nil => simp
  | cons i l ih =>
      rw [List.foldl_cons, ih]
      simp [Finset.mem_insert]
      tauto

theorem mem_turnsFold (ts : List SupportTurn) (acc : Finset String) (x : String) :
    x ∈ ts.foldl (fun acc turn =>
      match turn.intents with
      | some is => is.foldl (fun a i => insert i a) acc
      | none => acc) acc ↔ x ∈ acc ∨ ∃ t ∈ ts, x ∈ t.intents.getD [] := by
  induction ts generalizing acc with
  | nil => simp
  | cons t ts ih =>
      rw [List.foldl_cons]
      cases hti : t.intents with
      | none =>
          rw [ih]
          simp [hti]
      | some is =>
          rw [ih]
          simp [hti, mem_foldl_insert]
          tauto

theorem intents_fold_ok (dialogues : List SupportDialogue) (acc : Finset String)
    (h : ∀ d ∈ dialogues, d.turns.isSome = true) :
    ∃ s, dialogues.foldlM intentsStep acc = Except.ok s ∧
      ∀ x, x ∈ s ↔ x ∈ acc ∨ intentOccurs dialogues x := by
  induction dialogues generalizing acc with
  | nil =>
      refine ⟨acc, rfl, ?_⟩
      intro x
      simp [intentOccurs]
  | cons d ds ih =>
      obtain ⟨ts, hts⟩ := Option.isSome_iff_exists.mp (h d (List.mem_cons_self _ _))
      have hds : ∀ x ∈ ds, x.turns.isSome = true := fun x hx => h x (List.mem_cons_of_mem _ hx)
      have hstep : intentsStep acc d = Except.ok (ts.foldl (fun acc turn =>
          match turn.intents with
          | some is => is.foldl (fun a i => insert i a) acc
          | none => acc) acc) := by
        unfold intentsStep
        rw [show getKey d.turns "turns" = Except.ok ts by simp [getKey, hts], exceptBind_ok]
      obtain ⟨s, hfold, hmem⟩ := ih _ hds
      refine ⟨s, ?_, ?_⟩
      · rw [List.foldlM_cons, hstep, exceptBind_ok]
        exact hfold
      · intro x
        rw [hmem x, mem_turnsFold]
        unfold intentOccurs
        simp only [List.mem_cons, hts, Option.getD_some]
        constructor
        · rintro ((hx | ⟨t, htm, hxt⟩) | ⟨e, he, t, htm, hxt⟩)
          · exact Or.inl hx
          · exact Or.inr ⟨d, Or.inl rfl, t, by rw [hts]; exact htm, hxt⟩
          · exact Or.inr ⟨e, Or.inr he, t, htm, hxt⟩
        · rintro (hx | ⟨e, he | he, t, htm, hxt⟩)
          · exact Or.inl (Or.inl hx)
          · subst he
            exact Or.inl (Or.inr ⟨t, by rw [hts] at htm; exact htm, hxt⟩)
          · exact Or.inr ⟨e, he, t, htm, hxt⟩

theorem uniqueIntents_ok (dialogues : List SupportDialogue)
    (h : ∀ d ∈ dialogues, d.turns.isSome = true) :
    ∃ s, uniqueIntents dialogues = Except.ok s ∧ ∀ x, x ∈ s ↔ intentOccurs dialogues x := by
  obtain ⟨s, hfold, hmem⟩ := intents_fold_ok dialogues ∅ h
  refine ⟨s, hfold, ?_⟩
  intro x
  rw [hmem x]
  simp

/-- Claim C10: the dynamically generated labeling config is invariant under
duplication and reordering of intents in the input.  On well-formed input,
`sorted_unique_intents` is a duplicate-free lexicographically sorted list
containing exactly the intents occurring in some turn; permuting the input
dialogues leaves it unchanged, appending a dialogue whose intents all
already occur leaves it unchanged, and in both cases the generated choices
XML (one Choice element per unique intent, in sorted order) is unchanged as
well. -/
theorem claim10_intents_invariance (ds1 ds2 : List SupportDialogue) (d' : SupportDialogue)
    (h1 : ∀ d ∈ ds1, d.turns.isSome = true)
    (hp : ds1.Perm ds2)
    (hd' : d'.turns.isSome = true)
    (hcov : ∀ t ∈ d'.turns.getD [], ∀ x ∈ t.intents.getD [], intentOccurs ds1 x) :
    ∃ l, sortedUniqueIntents ds1 = Except.ok l ∧
      l.Nodup ∧ l.Sorted (· ≤ ·) ∧ (∀ x, x ∈ l ↔ intentOccurs ds1 x) ∧
      sortedUniqueIntents ds2 = Except.ok l ∧
      sortedUniqueIntents (ds1 ++ [d']) = Except.ok l ∧
      choicesXmlOf ds2 = choicesXmlOf ds1 ∧
      choicesXmlOf (ds1 ++ [d']) = choicesXmlOf ds1 := by
  obtain ⟨s1, hu1, hm1⟩ := uniqueIntents_ok ds1 h1
  have h2 : ∀ d ∈ ds2, d.turns.isSome = true := fun d hd => h1 d (hp.mem_iff.mpr hd)
  obtain ⟨s2, hu2, hm2⟩ := uniqueIntents_ok ds2 h2
  have h3 : ∀ d ∈ ds1 ++ [d'], d.turns.isSome = true := by
    intro d hd
    rcases List.mem_append.mp hd with hd | hd
    · exact h1 d hd
    · rw [show d = d' by simpa using hd]
      exact hd'
  obtain ⟨s3, hu3, hm3⟩ := uniqueIntents_ok (ds1 ++ [d']) h3
  have hocc2 : ∀ x, intentOccurs ds2 x ↔ intentOccurs ds1 x := by
    intro x
    unfold intentOccurs
    constructor
    · rintro ⟨d, hd, rest⟩
      exact ⟨d, hp.mem_iff.mpr hd, rest⟩
    · rintro ⟨d, hd, rest⟩
      exact ⟨d, hp.mem_iff.mp hd, rest⟩
  have hocc3 : ∀ x, intentOccurs (ds1 ++ [d']) x ↔ intentOccurs ds1 x := by
    intro x
    constructor
    · rintro ⟨d, hd, t, ht, hx⟩
      rcases List.mem_append.mp hd with hd | hd
      · exact ⟨d, hd, t, ht, hx⟩
      · have he : d = d' := by simpa using hd
        subst he
        exact hcov t ht x hx
    · rintro ⟨d, hd, rest⟩
      exact ⟨d, List.mem_append_left _ hd, rest⟩
  have hs2 : s2 = s1 := Finset.ext (fun x => by rw [hm2, hm1, hocc2])
  have hs3 : s3 = s1 := Finset.ext (fun x => by rw [hm3, hm1, hocc3])
  refine ⟨Finset.sort (· ≤ ·) s1, ?_, Finset.sort_nodup _ _, Finset.sort_sorted _ _,
    ?_, ?_, ?_, ?_, ?_⟩
  · unfold sortedUniqueIntents
    rw [hu1]
    rfl
  · intro x
    rw [Finset.mem_sort]
    exact hm1 x
  · unfold sortedUniqueIntents
    rw [hu2, hs2]
    rfl
  · unfold sortedUniqueIntents
    rw [hu3, hs3]
    rfl
  · unfold choicesXmlOf sortedUniqueIntents
    rw [hu1, hu2, hs2]
  · unfold choicesXmlOf sortedUniqueIntents
    rw [hu1, hu3, hs3]

/-- Witness for claim C10 at the concrete dialogue lists. -/
theorem claim10_intents_invariance_witness :
    ∃ l, sortedUniqueIntents intentsWitness1 = Except.ok l ∧
      l.Nodup ∧ l.Sorted (· ≤ ·) ∧ (∀ x, x ∈ l ↔ intentOccurs intentsWitness1 x) ∧
      sortedUniqueIntents intentsWitness2 = Except.ok l ∧
      sortedUniqueIntents (intentsWitness1 ++ [intentsWitnessExtra]) = Except.ok l ∧
      choicesXmlOf intentsWitness2 = choicesXmlOf intentsWitness1 ∧
      choicesXmlOf (intentsWitness1 ++ [intentsWitnessExtra]) = choicesXmlOf intentsWitness1 :=
  claim10_intents_invariance intentsWitness1 intentsWitness2 intentsWitnessExtra
    (by decide) (by decide) (by decide) (by decide)
